import Mathlib

/-!
Verification development for the chart-update core of `blockscout-rs`
(`stats` crate: `charts/lines/new_txns.rs`, `update/mod.rs`) and the
`bens-logic` SQL layer (`subgraphs_reader/sql/domain.rs`).

Dates are modelled as natural numbers in `yyyymmdd` encoding, so calendar
order coincides with numeric order.  Machine-level concerns (database
connections, async executors) are replaced by explicit data: the primary
ledger is a list of joined `transactions x blocks` rows, and the secondary
store is a map from chart name to its persisted series.
-/

/-- A row of a chart's series: the `DateValue` struct of the stats crate,
with the value kept as text exactly as the SQL `COUNT(*)::TEXT` produces it. -/
structure DateValue where
  date : Nat
  value : String
deriving DecidableEq, Repr

/-- One joined `transactions JOIN blocks` row of the primary ledger, reduced
to the two columns the `new_txns` query inspects: the calendar date of the
block timestamp and the block's consensus flag. -/
structure TxRow where
  date : Nat
  consensus : Bool
deriving DecidableEq, Repr

/-- The WHERE clause of the `new_txns` query: `b.consensus = true`, and when a
last row (checkpoint) is supplied, additionally `date(b.timestamp) > $1`. -/
def keepRow (last_row : Option DateValue) (t : TxRow) : Bool :=
  t.consensus &&
    (match last_row with
     | some row => decide (row.date < t.date)
     | none => true)

/-- Distinct group keys of a `GROUP BY` in order of first appearance in the
scan, with `seen` the keys already emitted.  Postgres leaves the output order
of a `GROUP BY` without `ORDER BY` unspecified; this fixes one admissible
order (first occurrence in table order). -/
def firstOccurAux (seen : List Nat) : List Nat → List Nat
  | [] => []
  | d :: ds => if d ∈ seen then firstOccurAux seen ds else d :: firstOccurAux (d :: seen) ds

/-- `NewTxns::read_values`: runs the aggregate query
`SELECT date(b.timestamp) AS date, COUNT(*)::TEXT AS value FROM transactions t
JOIN blocks b ON ... WHERE [date(b.timestamp) > $1 AND] b.consensus = true
GROUP BY date` against the ledger.  Group rows are produced in first-occurrence
order since the query has no ORDER BY. -/
def NewTxns.read_values (blockscout : List TxRow) (last_row : Option DateValue) :
    List DateValue :=
  (firstOccurAux [] ((blockscout.filter (keepRow last_row)).map TxRow.date)).map
    (fun d => { date := d,
                value := toString ((blockscout.filter (keepRow last_row)).countP
                  (fun t => t.date == d)) })

theorem mem_firstOccurAux {a : Nat} : ∀ (l seen : List Nat),
    a ∈ firstOccurAux seen l ↔ a ∈ l ∧ a ∉ seen := by
  intro l
  induction l with
  | nil => intro seen; simp [firstOccurAux]
  | cons d ds ih =>
    intro seen
    by_cases hd : d ∈ seen
    · simp only [firstOccurAux, if_pos hd, ih]
      constructor
      · rintro ⟨h1, h2⟩; exact ⟨List.mem_cons_of_mem _ h1, h2⟩
      · rintro ⟨h1, h2⟩
        rcases List.mem_cons.mp h1 with rfl | h1
        · exact absurd hd h2
        · exact ⟨h1, h2⟩
    · simp only [firstOccurAux, if_neg hd, List.mem_cons, ih]
      constructor
      · rintro (rfl | ⟨h1, h2⟩)
        · exact ⟨Or.inl rfl, hd⟩
        · refine ⟨Or.inr h1, fun hs => h2 (Or.inr hs)⟩
      · rintro ⟨rfl | h1, h2⟩
        · exact Or.inl rfl
        · by_cases had : a = d
          · exact Or.inl had
          · exact Or.inr ⟨h1, by simp [had, h2]⟩

theorem nodup_firstOccurAux : ∀ (l seen : List Nat), (firstOccurAux seen l).Nodup := by
  intro l
  induction l with
  | nil => intro seen; simp [firstOccurAux]
  | cons d ds ih =>
    intro seen
    by_cases hd : d ∈ seen
    · simpa [firstOccurAux, if_pos hd] using ih seen
    · simp only [firstOccurAux, if_neg hd, List.nodup_cons]
      refine ⟨fun hmem => ?_, ih (d :: seen)⟩
      exact ((mem_firstOccurAux ds (d :: seen)).mp hmem).2 (List.mem_cons_self d seen)

theorem countP_ext {α : Type} (p q : α → Bool) :
    ∀ l : List α, (∀ a ∈ l, p a = q a) → l.countP p = l.countP q := by
  intro l
  induction l with
  | nil => simp
  | cons a l ih =>
    intro h
    have ha := h a (List.mem_cons_self a l)
    simp [List.countP_cons, ha, ih (fun b hb => h b (List.mem_cons_of_mem _ hb))]

theorem countP_filter_eq {α : Type} (p q : α → Bool) :
    ∀ l : List α, (l.filter q).countP p = l.countP (fun a => p a && q a) := by
  intro l
  induction l with
  | nil => simp
  | cons a l ih =>
    by_cases hq : q a <;> simp [List.filter_cons, hq, List.countP_cons, ih]

/-- Claim C3: for every checkpoint value, `read_values` returns only rows whose
date is strictly after the checkpoint (or the full history when the checkpoint
is absent), grouped per day with the count encoded as text, counting only
consensus-confirmed rows of the ledger. -/
theorem NewTxns.read_values_checkpoint_consensus
    (L : List TxRow) (lr : Option DateValue) (dv : DateValue)
    (h : dv ∈ NewTxns.read_values L lr) :
    (∀ r, lr = some r → r.date < dv.date) ∧
    dv.value = toString (L.countP (fun t => t.consensus && (t.date == dv.date))) ∧
    (lr = none → ∀ t ∈ L, t.consensus = true →
      ∃ dv2 ∈ NewTxns.read_values L none, dv2.date = t.date) := by
  obtain ⟨d, hd, hdv⟩ := List.mem_map.mp h
  obtain ⟨hmem, -⟩ := (mem_firstOccurAux _ _).mp hd
  obtain ⟨t0, ht0, ht0d⟩ := List.mem_map.mp hmem
  obtain ⟨ht0L, ht0keep⟩ := List.mem_filter.mp ht0
  have hdate : dv.date = d := by rw [← hdv]
  have hafter : ∀ r, lr = some r → r.date < dv.date := by
    intro r hr
    subst hr
    simp only [keepRow, Bool.and_eq_true, decide_eq_true_eq] at ht0keep
    rw [hdate, ← ht0d]
    exact ht0keep.2
  refine ⟨hafter, ?_, ?_⟩
  · have hval : dv.value =
        toString ((L.filter (keepRow lr)).countP (fun t => t.date == d)) := by
      rw [← hdv]
    rw [hval, countP_filter_eq, hdate]
    congr 1
    apply countP_ext
    intro t _
    by_cases htd : t.date = d
    · have htd' : (t.date == d) = true := by simpa using htd
      cases lr with
      | none => simp [keepRow, htd']
      | some r =>
        have hrd : r.date < d := by
          have := hafter r rfl
          rwa [hdate] at this
        simp [keepRow, htd', htd, hrd]
    · have htd' : (t.date == d) = false := by simpa using htd
      simp [htd']
  · rintro rfl t htL htc
    have hkeep : keepRow none t = true := by simp [keepRow, htc]
    have htf : t ∈ L.filter (keepRow none) := List.mem_filter.mpr ⟨htL, hkeep⟩
    have htd : t.date ∈ (L.filter (keepRow none)).map TxRow.date :=
      List.mem_map_of_mem _ htf
    have htfo : t.date ∈ firstOccurAux [] ((L.filter (keepRow none)).map TxRow.date) :=
      (mem_firstOccurAux _ _).mpr ⟨htd, by simp⟩
    exact ⟨_, List.mem_map_of_mem _ htfo, rfl⟩

/-- Concrete witness input for the theorem of claim C3. -/
def c3Ledger : List TxRow := [{ date := 4, consensus := true }, { date := 7, consensus := true }]

/-- Witness for claim C3's theorem: evaluated at a two-row ledger with
checkpoint date 4, the single output row has date 7 and value "1". -/
theorem NewTxns.read_values_checkpoint_consensus_witness :
    ({ date := 7, value := "1" } : DateValue) ∈
        NewTxns.read_values c3Ledger (some { date := 4, value := "9" }) ∧
      ((∀ r, (some { date := 4, value := "9" } : Option DateValue) = some r →
          r.date < ({ date := 7, value := "1" } : DateValue).date) ∧
        ({ date := 7, value := "1" } : DateValue).value =
          toString (c3Ledger.countP (fun t => t.consensus &&
            (t.date == ({ date := 7, value := "1" } : DateValue).date))) ∧
        ((some { date := 4, value := "9" } : Option DateValue) = none →
          ∀ t ∈ c3Ledger, t.consensus = true →
            ∃ dv2 ∈ NewTxns.read_values c3Ledger none, dv2.date = t.date)) :=
  ⟨by decide,
   NewTxns.read_values_checkpoint_consensus c3Ledger
     (some { date := 4, value := "9" }) { date := 7, value := "1" } (by decide)⟩

/-- A ledger whose rows arrive with the later date first.  The `new_txns`
query has `GROUP BY date` but no `ORDER BY`, so the group rows come back in
an order the database chooses; the embedding realises first-occurrence order. -/
def c4Ledger : List TxRow := [{ date := 20221112, consensus := true }, { date := 20221109, consensus := true }]

/-- Counterexample for claim C4 as stated: the sequence returned by
`read_values` is not ordered by date ascending, because the aggregate query
has no ORDER BY clause.  On a ledger scanned with the later date first, the
output dates are `[20221112, 20221109]`. -/
theorem NewTxns.read_values_not_sorted_cex :
    (NewTxns.read_values c4Ledger none).map DateValue.date = [20221112, 20221109] ∧
      ¬ List.Chain' (fun a b : DateValue => a.date ≤ b.date)
        (NewTxns.read_values c4Ledger none) := by
  have hl : NewTxns.read_values c4Ledger none =
      [{ date := 20221112, value := "1" }, { date := 20221109, value := "1" }] := by decide
  refine ⟨by rw [hl]; rfl, ?_⟩
  rw [hl]
  intro hch
  rcases List.chain'_cons.mp hch with ⟨hle, -⟩
  exact absurd hle (by decide)

/-- Claim C4 (amended): for every checkpoint value, the sequence returned by
`read_values` contains at most one row per date (the `GROUP BY` emits each
distinct date once); ascending date order is not guaranteed, since the query
has no ORDER BY clause. -/
theorem NewTxns.read_values_unique_dates (L : List TxRow) (lr : Option DateValue) :
    ((NewTxns.read_values L lr).map DateValue.date).Nodup := by
  have : (NewTxns.read_values L lr).map DateValue.date =
      firstOccurAux [] ((L.filter (keepRow lr)).map TxRow.date) := by
    simp [NewTxns.read_values, List.map_map, Function.comp_def]
  rw [this]
  exact nodup_firstOccurAux _ _

/-- Chart kinds exposed to the presentation layer (spec item: Line | Counter,
the `ChartType` enum of the entity crate). -/
inductive ChartType
  | line
  | counter
deriving DecidableEq, Repr

/-- Modelled from the spec: the Store (secondary persistence, spec 4.4) is not
under src/.  It maps a chart name to the chart's persisted series; each series
is kept sorted by date, matching the invariant that dates are strictly
increasing with no duplicates. -/
def Store : Type := String → List DateValue

def seriesOf (db : Store) (name : String) : List DateValue := db name

def putSeries (db : Store) (name : String) (s : List DateValue) : Store :=
  fun n => if n = name then s else db n

/-- Modelled from the spec: upsert of one row (spec 4.4): the (chartName, date)
pair is inserted if absent or its value overwritten if present; the series
stays sorted by date. -/
def upsertRow (r : DateValue) : List DateValue → List DateValue
  | [] => [r]
  | x :: xs =>
    if r.date < x.date then r :: x :: xs
    else if r.date = x.date then r :: xs
    else x :: upsertRow r xs

def upsertRows (rs : List DateValue) (s : List DateValue) : List DateValue :=
  rs.foldl (fun acc r => upsertRow r acc) s

/-- `Store.lastDate` source of the checkpoint: the most recently persisted row.
The series is sorted ascending, so it is the last element. -/
def lastRowOf (s : List DateValue) : Option DateValue := s.getLast?

/-- Modelled from the spec: `ChartUpdater::update_with_values` (spec 4.2) is
not under src/ (only `Chart::update` delegating to it is).  Checkpoint = the
stored last row, discarded when `force_full`; fetch via `read_values`; persist
with the idempotent upsert.  The single-flight cache only deduplicates
concurrent fetches and is the identity for a single sequential call. -/
def update_with_values (db : Store) (blockscout : List TxRow) (name : String)
    (force_full : Bool) : Store :=
  putSeries db name
    (upsertRows
      (NewTxns.read_values blockscout
        (if force_full then none else lastRowOf (seriesOf db name)))
      (seriesOf db name))

def NewTxns.name : String := "newTxns"

def NewTxns.chart_type : ChartType := ChartType.line

/-- `Chart::update` for `NewTxns`: delegates to `update_with_values`. -/
def NewTxns.update (db : Store) (blockscout : List TxRow) (force_full : Bool) :
    Store :=
  update_with_values db blockscout NewTxns.name force_full

/-- The source scenario of the `update_new_txns` test: daily consensus
transaction counts 3, 6, 6, 1 on 2022-11-09 .. 2022-11-12, appended to the
ledger in timestamp order. -/
def c2Ledger : List TxRow :=
  List.replicate 3 { date := 20221109, consensus := true } ++
  List.replicate 6 { date := 20221110, consensus := true } ++
  List.replicate 6 { date := 20221111, consensus := true } ++
  [{ date := 20221112, consensus := true }]

def emptyStore : Store := fun _ => []

/-- Claim C2: against an empty chart named "newTxns", with source daily counts
3, 6, 6, 1 on 2022-11-09..12, `update(forceFull := false)` persists exactly
these four (date, value) rows in ascending date order, the checkpoint
afterwards is 2022-11-12, and no other chart's state is touched. -/
theorem NewTxns.update_concrete_scenario :
    seriesOf (NewTxns.update emptyStore c2Ledger false) NewTxns.name =
      [{ date := 20221109, value := "3" }, { date := 20221110, value := "6" },
       { date := 20221111, value := "6" }, { date := 20221112, value := "1" }] ∧
    (lastRowOf (seriesOf (NewTxns.update emptyStore c2Ledger false) NewTxns.name)).map
        DateValue.date = some 20221112 ∧
    (∀ n, n ≠ NewTxns.name → seriesOf (NewTxns.update emptyStore c2Ledger false) n = []) := by
  refine ⟨by decide, by decide, ?_⟩
  intro n hn
  simp [NewTxns.update, update_with_values, seriesOf, putSeries, emptyStore, hn]

/-- The spec invariant on a persisted series: dates strictly increasing. -/
def SeriesSorted (s : List DateValue) : Prop :=
  List.Chain' (fun a b => a.date < b.date) s

def datesOf (s : List DateValue) : List Nat := s.map DateValue.date

theorem getLast?_mem_self {α : Type} : ∀ (l : List α) (a : α), l.getLast? = some a → a ∈ l := by
  intro l
  induction l with
  | nil => simp
  | cons x xs ih =>
    intro a h
    cases xs with
    | nil =>
      simp only [List.getLast?_singleton, Option.some.injEq] at h
      simp [h]
    | cons y ys =>
      rw [List.getLast?_cons_cons] at h
      exact List.mem_cons_of_mem _ (ih a h)

theorem head?_upsertRow (r b : DateValue) :
    ∀ s : List DateValue, (upsertRow r s).head? = some b → b = r ∨ s.head? = some b := by
  intro s hb
  cases s with
  | nil =>
    simp only [upsertRow, List.head?_cons, Option.some.injEq] at hb
    exact Or.inl hb.symm
  | cons x xs =>
    by_cases h1 : r.date < x.date
    · simp only [upsertRow, if_pos h1, List.head?_cons, Option.some.injEq] at hb
      exact Or.inl hb.symm
    · by_cases h2 : r.date = x.date
      · simp only [upsertRow, if_neg h1, if_pos h2, List.head?_cons, Option.some.injEq] at hb
        exact Or.inl hb.symm
      · simp only [upsertRow, if_neg h1, if_neg h2, List.head?_cons, Option.some.injEq] at hb
        exact Or.inr (by simp [hb])

theorem sorted_upsertRow (r : DateValue) :
    ∀ s : List DateValue, SeriesSorted s → SeriesSorted (upsertRow r s) := by
  intro s
  induction s with
  | nil => intro _; simp [upsertRow, SeriesSorted]
  | cons x xs ih =>
    intro hs
    obtain ⟨hx, hxs⟩ := List.chain'_cons'.mp hs
    by_cases h1 : r.date < x.date
    · simp only [SeriesSorted, upsertRow, if_pos h1]
      refine List.chain'_cons'.mpr ⟨?_, hs⟩
      intro y hy
      simp only [List.head?_cons, Option.mem_def, Option.some.injEq] at hy
      subst hy
      exact h1
    · by_cases h2 : r.date = x.date
      · simp only [SeriesSorted, upsertRow, if_neg h1, if_pos h2]
        refine List.chain'_cons'.mpr ⟨?_, hxs⟩
        intro y hy
        have := hx y hy
        omega
      · simp only [SeriesSorted, upsertRow, if_neg h1, if_neg h2]
        refine List.chain'_cons'.mpr ⟨?_, ih hxs⟩
        intro y hy
        rcases head?_upsertRow r y xs hy with rfl | hy2
        · omega
        · exact hx y hy2

theorem datesOf_cons (x : DateValue) (s : List DateValue) :
    datesOf (x :: s) = x.date :: datesOf s := rfl

theorem mem_datesOf_upsertRow (d : Nat) (r : DateValue) :
    ∀ s : List DateValue, d ∈ datesOf (upsertRow r s) ↔ d = r.date ∨ d ∈ datesOf s := by
  intro s
  induction s with
  | nil => simp [upsertRow, datesOf]
  | cons x xs ih =>
    by_cases h1 : r.date < x.date
    · have hu : upsertRow r (x :: xs) = r :: x :: xs := by simp [upsertRow, h1]
      rw [hu, datesOf_cons, datesOf_cons]
      simp [List.mem_cons]
    · by_cases h2 : r.date = x.date
      · have hu : upsertRow r (x :: xs) = r :: xs := by simp [upsertRow, h1, h2]
        rw [hu, datesOf_cons, datesOf_cons]
        simp only [List.mem_cons]
        constructor
        · rintro (rfl | h)
          · exact Or.inl rfl
          · exact Or.inr (Or.inr h)
        · rintro (rfl | rfl | h)
          · exact Or.inl rfl
          · exact Or.inl h2.symm
          · exact Or.inr h
      · have hu : upsertRow r (x :: xs) = x :: upsertRow r xs := by simp [upsertRow, h1, h2]
        rw [hu, datesOf_cons, datesOf_cons]
        simp only [List.mem_cons, ih]
        tauto

theorem sorted_upsertRows :
    ∀ (rs : List DateValue) (s : List DateValue),
      SeriesSorted s → SeriesSorted (upsertRows rs s) := by
  intro rs
  induction rs with
  | nil => intro s hs; exact hs
  | cons r rs ih => intro s hs; exact ih (upsertRow r s) (sorted_upsertRow r s hs)

theorem mem_datesOf_upsertRows (d : Nat) :
    ∀ (rs : List DateValue) (s : List DateValue),
      d ∈ datesOf (upsertRows rs s) ↔ d ∈ datesOf rs ∨ d ∈ datesOf s := by
  intro rs
  induction rs with
  | nil => intro s; simp [upsertRows, datesOf]
  | cons r rs ih =>
    intro s
    have hstep : upsertRows (r :: rs) s = upsertRows rs (upsertRow r s) := rfl
    rw [hstep, ih, mem_datesOf_upsertRow, datesOf_cons]
    simp only [List.mem_cons]
    tauto

theorem le_getLast_of_sorted :
    ∀ (s : List DateValue), SeriesSorted s → ∀ last, s.getLast? = some last →
      ∀ d ∈ datesOf s, d ≤ last.date := by
  intro s
  induction s with
  | nil => intro _ last h; simp at h
  | cons x xs ih =>
    intro hs last hlast d hd
    rw [datesOf_cons] at hd
    rcases List.mem_cons.mp hd with rfl | hd
    · cases xs with
      | nil =>
        simp only [List.getLast?_singleton, Option.some.injEq] at hlast
        subst hlast
        exact le_refl _
      | cons y ys =>
        obtain ⟨hx, hxs⟩ := List.chain'_cons'.mp hs
        rw [List.getLast?_cons_cons] at hlast
        have hy : x.date < y.date := hx y rfl
        have hyle : y.date ≤ last.date :=
          ih hxs last hlast y.date (by rw [datesOf_cons]; exact List.mem_cons_self _ _)
        omega
    · cases xs with
      | nil => simp [datesOf] at hd
      | cons y ys =>
        obtain ⟨-, hxs⟩ := List.chain'_cons'.mp hs
        rw [List.getLast?_cons_cons] at hlast
        exact ih hxs last hlast d hd

theorem upsertRow_ne_nil (r : DateValue) : ∀ s : List DateValue, upsertRow r s ≠ [] := by
  intro s
  cases s with
  | nil => simp [upsertRow]
  | cons x xs =>
    by_cases h1 : r.date < x.date
    · simp [upsertRow, h1]
    · by_cases h2 : r.date = x.date <;> simp [upsertRow, h1, h2]

theorem upsertRows_eq_nil :
    ∀ (rs : List DateValue) (s : List DateValue), upsertRows rs s = [] → rs = [] ∧ s = [] := by
  intro rs
  induction rs with
  | nil => intro s h; exact ⟨rfl, h⟩
  | cons r rs ih =>
    intro s h
    have hstep : upsertRows (r :: rs) s = upsertRows rs (upsertRow r s) := rfl
    rw [hstep] at h
    exact absurd (ih _ h).2 (upsertRow_ne_nil r s)

theorem read_values_after_update_nil (L : List TxRow) (s0 : List DateValue)
    (h : SeriesSorted s0) :
    NewTxns.read_values L
      (lastRowOf (upsertRows (NewTxns.read_values L (lastRowOf s0)) s0)) = [] := by
  cases hlast : lastRowOf (upsertRows (NewTxns.read_values L (lastRowOf s0)) s0) with
  | none =>
    have hnil : upsertRows (NewTxns.read_values L (lastRowOf s0)) s0 = [] :=
      List.getLast?_eq_none_iff.mp hlast
    obtain ⟨hv1nil, hs0nil⟩ := upsertRows_eq_nil _ _ hnil
    subst hs0nil
    simpa [lastRowOf] using hv1nil
  | some last1 =>
    have hsorted1 : SeriesSorted (upsertRows (NewTxns.read_values L (lastRowOf s0)) s0) :=
      sorted_upsertRows _ _ h
    have hbound : ∀ d ∈ datesOf (upsertRows (NewTxns.read_values L (lastRowOf s0)) s0),
        d ≤ last1.date :=
      le_getLast_of_sorted _ hsorted1 last1 hlast
    have hfilter : L.filter (keepRow (some last1)) = [] := by
      rw [List.filter_eq_nil_iff]
      intro t htL hkeep
      simp only [keepRow, Bool.and_eq_true, decide_eq_true_eq] at hkeep
      obtain ⟨htc, htgt⟩ := hkeep
      have htle : t.date ≤ last1.date := by
        cases hcp : lastRowOf s0 with
        | some r0 =>
          by_cases hr0 : r0.date < t.date
          · apply hbound
            rw [mem_datesOf_upsertRows]
            left
            have hkeep1 : keepRow (some r0) t = true := by simp [keepRow, htc, hr0]
            have htf : t ∈ L.filter (keepRow (some r0)) :=
              List.mem_filter.mpr ⟨htL, hkeep1⟩
            have hmemf : t.date ∈
                firstOccurAux [] ((L.filter (keepRow (some r0))).map TxRow.date) :=
              (mem_firstOccurAux _ _).mpr ⟨List.mem_map_of_mem _ htf, by simp⟩
            rw [hcp]
            have hdd : datesOf (NewTxns.read_values L (some r0)) =
                firstOccurAux [] ((L.filter (keepRow (some r0))).map TxRow.date) := by
              simp [datesOf, NewTxns.read_values, List.map_map, Function.comp_def]
            rw [hdd]
            exact hmemf
          · have hr0mem : r0 ∈ s0 := getLast?_mem_self s0 r0 hcp
            have hr0le : r0.date ≤ last1.date := by
              apply hbound
              rw [mem_datesOf_upsertRows]
              right
              exact List.mem_map_of_mem _ hr0mem
            omega
        | none =>
          apply hbound
          rw [mem_datesOf_upsertRows]
          left
          have hkeep1 : keepRow none t = true := by simp [keepRow, htc]
          have htf : t ∈ L.filter (keepRow none) := List.mem_filter.mpr ⟨htL, hkeep1⟩
          have hmemf : t.date ∈
              firstOccurAux [] ((L.filter (keepRow none)).map TxRow.date) :=
            (mem_firstOccurAux _ _).mpr ⟨List.mem_map_of_mem _ htf, by simp⟩
          rw [hcp]
          have hdd : datesOf (NewTxns.read_values L none) =
              firstOccurAux [] ((L.filter (keepRow none)).map TxRow.date) := by
            simp [datesOf, NewTxns.read_values, List.map_map, Function.comp_def]
          rw [hdd]
          exact hmemf
      omega
    simp [NewTxns.read_values, hfilter, firstOccurAux]

/-- Claim C5: for every chart state whose persisted series satisfies the
sortedness invariant, calling update(forceFull=false) twice with no new
source activity in between leaves the persisted series byte-identical to
what it was after the first call: the second fetch returns nothing, and the
(chartName, date)-keyed upsert of nothing changes nothing. -/
theorem NewTxns.update_idempotent (db : Store) (L : List TxRow)
    (h : SeriesSorted (seriesOf db NewTxns.name)) :
    NewTxns.update (NewTxns.update db L false) L false = NewTxns.update db L false := by
  have hser : seriesOf (NewTxns.update db L false) NewTxns.name =
      upsertRows (NewTxns.read_values L (lastRowOf (seriesOf db NewTxns.name)))
        (seriesOf db NewTxns.name) := by
    simp [NewTxns.update, update_with_values, seriesOf, putSeries]
  have hv2 : NewTxns.read_values L
      (lastRowOf (seriesOf (NewTxns.update db L false) NewTxns.name)) = [] := by
    rw [hser]
    exact read_values_after_update_nil L (seriesOf db NewTxns.name) h
  funext n
  show putSeries (NewTxns.update db L false) NewTxns.name
      (upsertRows
        (NewTxns.read_values L
          (lastRowOf (seriesOf (NewTxns.update db L false) NewTxns.name)))
        (seriesOf (NewTxns.update db L false) NewTxns.name)) n =
    NewTxns.update db L false n
  rw [hv2]
  show putSeries (NewTxns.update db L false) NewTxns.name
      (seriesOf (NewTxns.update db L false) NewTxns.name) n =
    NewTxns.update db L false n
  unfold putSeries seriesOf
  by_cases hn : n = NewTxns.name
  · simp [hn]
  · simp [hn]

/-- Witness for claim C5's theorem: the empty store satisfies the sortedness
hypothesis, and updating twice from the concrete test ledger equals updating
once. -/
theorem NewTxns.update_idempotent_witness :
    SeriesSorted (seriesOf emptyStore NewTxns.name) ∧
      NewTxns.update (NewTxns.update emptyStore c2Ledger false) c2Ledger false =
        NewTxns.update emptyStore c2Ledger false :=
  ⟨by simp [SeriesSorted, seriesOf, emptyStore],
   NewTxns.update_idempotent emptyStore c2Ledger
     (by simp [SeriesSorted, seriesOf, emptyStore])⟩

/-- Modelled from the spec: the state of a chart's `Cache` entry (spec data
model): `Empty`, `InFlight` with the callers sharing the pending result, or
`Ready` with the last outcome.  The `Cache` implementation itself is not
under src/; only the call site `cache.get_or_update(...)` in
`ChartUpdater for NewTxns::get_values` is. -/
inductive CacheEntry (α : Type) : Type
  | empty : CacheEntry α
  | inFlight (sharers : List Nat) : CacheEntry α
  | ready (out : Except String α) : CacheEntry α

/-- Modelled from the spec: an instrumented cache: the entry, the number of
times the supplied computation has been started, and the outcomes delivered
to callers so far (most recent first). -/
structure CacheSys (α : Type) : Type where
  entry : CacheEntry α
  execs : Nat
  delivered : List (Nat × Except String α)

/-- Events of the cache state machine: a caller invoking get-or-compute, or
the in-flight computation finishing with an outcome. -/
inductive CacheEvent (α : Type) : Type
  | arrive (caller : Nat) : CacheEvent α
  | finish (out : Except String α) : CacheEvent α

/-- Modelled from the spec: one step of `Cache::get_or_update` (spec 4.1).
An arriving caller starts the computation when the entry is empty, joins the
in-flight computation otherwise (without executing), is served the cached
value after a success, and starts a fresh computation after a failure
(failures do not poison the cache).  A finishing computation delivers its
outcome to every sharing caller. -/
def Cache.step {α : Type} (s : CacheSys α) : CacheEvent α → CacheSys α
  | CacheEvent.arrive c =>
    match s.entry with
    | CacheEntry.empty =>
      { s with entry := CacheEntry.inFlight [c], execs := s.execs + 1 }
    | CacheEntry.inFlight l =>
      { s with entry := CacheEntry.inFlight (c :: l) }
    | CacheEntry.ready (Except.ok v) =>
      { s with delivered := (c, Except.ok v) :: s.delivered }
    | CacheEntry.ready (Except.error _) =>
      { s with entry := CacheEntry.inFlight [c], execs := s.execs + 1 }
  | CacheEvent.finish o =>
    match s.entry with
    | CacheEntry.inFlight l =>
      { entry := CacheEntry.ready o, execs := s.execs,
        delivered := l.map (fun c => (c, o)) ++ s.delivered }
    | _ => s

/-- All callers in `cs` arrive (in order) at the cache. -/
def Cache.joinAll {α : Type} (s : CacheSys α) (cs : List Nat) : CacheSys α :=
  cs.foldl (fun s c => Cache.step s (CacheEvent.arrive c)) s

/-- The single-flight scenario of claim C1: caller `c0` has started a
computation (one execution so far), callers `cs` arrive while it is in
flight, then the computation finishes with outcome `o`. -/
def Cache.runSingleFlight {α : Type} (c0 : Nat) (cs : List Nat)
    (o : Except String α) : CacheSys α :=
  Cache.step (Cache.joinAll ⟨CacheEntry.inFlight [c0], 1, []⟩ cs) (CacheEvent.finish o)

theorem Cache.joinAll_inFlight {α : Type} (cs : List Nat) :
    ∀ (l : List Nat) (e : Nat) (d : List (Nat × Except String α)),
      Cache.joinAll ⟨CacheEntry.inFlight l, e, d⟩ cs =
        ⟨CacheEntry.inFlight (cs.reverse ++ l), e, d⟩ := by
  induction cs with
  | nil => intro l e d; simp [Cache.joinAll]
  | cons c cs ih =>
    intro l e d
    have hstep : Cache.joinAll (⟨CacheEntry.inFlight l, e, d⟩ : CacheSys α) (c :: cs) =
        Cache.joinAll ⟨CacheEntry.inFlight (c :: l), e, d⟩ cs := rfl
    rw [hstep, ih]
    simp

/-- Claim C1: if `N` callers invoke get-or-compute while one computation is in
flight, the computation is executed exactly once (the winning caller's start
is the only execution; losers never execute), and all `N + 1` callers receive
that single execution's outcome, success or error alike. -/
theorem Cache.single_flight_exactly_once {α : Type} (c0 : Nat) (cs : List Nat)
    (o : Except String α) :
    (Cache.runSingleFlight c0 cs o).execs = 1 ∧
      (Cache.runSingleFlight c0 cs o).delivered =
        (cs.reverse ++ [c0]).map (fun c => (c, o)) ∧
      ∀ c ∈ c0 :: cs, (c, o) ∈ (Cache.runSingleFlight c0 cs o).delivered := by
  have hrun : Cache.runSingleFlight c0 cs o =
      ⟨CacheEntry.ready o, 1, (cs.reverse ++ [c0]).map (fun c => (c, o))⟩ := by
    unfold Cache.runSingleFlight
    rw [Cache.joinAll_inFlight]
    simp [Cache.step]
  refine ⟨by rw [hrun], by rw [hrun], ?_⟩
  intro c hc
  rw [hrun]
  rcases List.mem_cons.mp hc with rfl | hc
  · exact List.mem_map_of_mem _ (by simp)
  · exact List.mem_map_of_mem _ (by simp [hc])

/-- Claim C7: a failed computation is delivered as a failure to every caller
that shared it; the next get-or-compute call on the same cache then starts a
fresh computation attempt (the entry goes back in flight and the execution
count increases) instead of replaying the stored failure. -/
theorem Cache.retry_after_failure {α : Type} (l : List Nat) (e e2 : Nat)
    (d d2 : List (Nat × Except String α)) (msg : String) (c : Nat) :
    Cache.step (⟨CacheEntry.inFlight l, e, d⟩ : CacheSys α)
        (CacheEvent.finish (Except.error msg)) =
      ⟨CacheEntry.ready (Except.error msg), e,
        l.map (fun c2 => (c2, Except.error msg)) ++ d⟩ ∧
    Cache.step (⟨CacheEntry.ready (Except.error msg), e2, d2⟩ : CacheSys α)
        (CacheEvent.arrive c) =
      ⟨CacheEntry.inFlight [c], e2 + 1, d2⟩ := by
  constructor
  · rfl
  · rfl

/-- The `UpdateError` enum of `src/update/mod.rs`: a database error (carrying
the underlying error rendered as text) or an unknown chart name. -/
inductive UpdateError : Type
  | DB (msg : String) : UpdateError
  | NotFound (name : String) : UpdateError
deriving DecidableEq, Repr

/-- Modelled from the spec: a chart as the registry sees it (spec 4.5): its
unique name, its kind, and its updater. -/
structure ChartEntry : Type where
  name : String
  chart_type : ChartType
  update : Store → List TxRow → Bool → Store

/-- Modelled from the spec: `ChartRegistry.get` resolves a chart by name and
fails with `NotFound(name)` when the name is not registered. -/
def ChartRegistry.get (reg : List ChartEntry) (name : String) :
    Except UpdateError ChartEntry :=
  match reg.find? (fun c => c.name == name) with
  | some c => Except.ok c
  | none => Except.error (UpdateError.NotFound name)

/-- Modelled from the spec: `ChartRegistry.update` resolves the chart and
delegates to its updater; the store is only reached through the resolved
chart. -/
def ChartRegistry.update (reg : List ChartEntry) (db : Store)
    (blockscout : List TxRow) (name : String) (force_full : Bool) :
    Except UpdateError Store :=
  match ChartRegistry.get reg name with
  | Except.ok c => Except.ok (c.update db blockscout force_full)
  | Except.error e => Except.error e

/-- Claim C6: for every name not registered in the registry, update fails with
`NotFound` carrying that exact name, and the outcome is the same for every
store contents — no Store state is read or written by the failing call. -/
theorem ChartRegistry.update_not_found (reg : List ChartEntry) (name : String)
    (h : ∀ c ∈ reg, c.name ≠ name) :
    ∀ (db : Store) (blockscout : List TxRow) (force_full : Bool),
      ChartRegistry.update reg db blockscout name force_full =
        Except.error (UpdateError.NotFound name) := by
  intro db blockscout force_full
  have hfind : reg.find? (fun c => c.name == name) = none := by
    rw [List.find?_eq_none]
    intro c hc
    simp [h c hc]
  simp [ChartRegistry.update, ChartRegistry.get, hfind]

/-- The chart registered in the model registry: `NewTxns`. -/
def newTxnsChart : ChartEntry :=
  { name := NewTxns.name, chart_type := NewTxns.chart_type,
    update := NewTxns.update }

/-- The name used by the unknown-chart scenario of the spec. -/
def missingName : String := "doesNotExist"

/-- Witness for claim C6's theorem: on a registry holding only the `newTxns`
chart, updating the unregistered name fails with `NotFound` of that name. -/
theorem ChartRegistry.update_not_found_witness :
    (∀ c ∈ [newTxnsChart], c.name ≠ missingName) ∧
      ChartRegistry.update [newTxnsChart] emptyStore c2Ledger missingName false =
        Except.error (UpdateError.NotFound missingName) := by
  have h : ∀ c ∈ [newTxnsChart], c.name ≠ missingName := by
    intro c hc
    rcases List.mem_singleton.mp hc with rfl
    simp [newTxnsChart, NewTxns.name, missingName]
  exact ⟨h, ChartRegistry.update_not_found [newTxnsChart] missingName h emptyStore c2Ledger false⟩

/-- `DOMAIN_DEFAULT_SELECT_CLAUSE` of `domain.rs` (whitespace normalised;
the model compares select clauses only for identity). -/
def DOMAIN_DEFAULT_SELECT_CLAUSE : String :=
  "id, name, resolved_address, created_at, to_timestamp(created_at) as registration_date, owner, wrapped_owner, to_timestamp(expiry_date) as expiry_date, COALESCE(to_timestamp(expiry_date) < now(), false) AS is_expired"

/-- `block_range @> 2147483647`: the current-version filter on `block_range`. -/
def DOMAIN_BLOCK_RANGE_WHERE_CLAUSE : String := "block_range @> 2147483647"

def DOMAIN_NONEMPTY_LABEL_WHERE_CLAUSE : String := "label_name IS NOT NULL"

/-- `DOMAIN_NOT_EXPIRED_WHERE_CLAUSE` (whitespace normalised). -/
def DOMAIN_NOT_EXPIRED_WHERE_CLAUSE : String :=
  "(expiry_date is null OR to_timestamp(expiry_date) > now())"

/-- The SQL string quote character (ASCII 39). -/
def sqlQuote : String := String.mk [Char.ofNat 39]

/-- The `with_resolved_names` filter: name NOT LIKE quoted pattern
percent-bracket-percent, excluding unresolved hash-named domains. -/
def DOMAIN_RESOLVED_NAMES_WHERE_CLAUSE : String :=
  "name NOT LIKE " ++ sqlQuote ++ "%[%" ++ sqlQuote

def NEQ_SELF_CLAUSE : String := "$1 <> $1"

def RESOLVED_ADDRESS_EQ_CLAUSE : String := "resolved_address = $1"

def OWNER_EQ_CLAUSE : String := "owner = $1"

def WRAPPED_OWNER_EQ_CLAUSE : String := "wrapped_owner = $1"

def ID_ANY_CLAUSE : String := "id = ANY($1)"

/-- The structural content of the `sea_query::SelectStatement`s built in
`domain.rs`: select expression, schema-qualified `domain` table, the
accumulated `and_where` custom clauses, the optional `cond_where` any-of
condition, and the ordering/limit added by pagination. -/
structure SelectStatement : Type where
  selectClause : String
  fromSchema : String
  fromTable : String
  andWhere : List String
  condWhereAny : Option (List String)
  orderByField : Option String
  orderAscending : Bool
  limit : Option Nat
deriving DecidableEq, Repr

/-- `sql_gen::domain_select_custom`. -/
def sql_gen.domain_select_custom (schema select : String) : SelectStatement :=
  { selectClause := select, fromSchema := schema, fromTable := "domain",
    andWhere := [], condWhereAny := none, orderByField := none,
    orderAscending := true, limit := none }

/-- `sql_gen::domain_select`. -/
def sql_gen.domain_select (schema : String) : SelectStatement :=
  sql_gen.domain_select_custom schema DOMAIN_DEFAULT_SELECT_CLAUSE

def SelectStatement.and_where (q : SelectStatement) (clause : String) :
    SelectStatement :=
  { q with andWhere := q.andWhere ++ [clause] }

def SelectStatement.with_block_range (q : SelectStatement) : SelectStatement :=
  q.and_where DOMAIN_BLOCK_RANGE_WHERE_CLAUSE

def SelectStatement.with_non_empty_label (q : SelectStatement) : SelectStatement :=
  q.and_where DOMAIN_NONEMPTY_LABEL_WHERE_CLAUSE

def SelectStatement.with_not_expired (q : SelectStatement) : SelectStatement :=
  q.and_where DOMAIN_NOT_EXPIRED_WHERE_CLAUSE

def SelectStatement.with_resolved_names (q : SelectStatement) : SelectStatement :=
  q.and_where DOMAIN_RESOLVED_NAMES_WHERE_CLAUSE

/-- `cond_where` with a `Condition::any()` of custom expressions. -/
def SelectStatement.cond_where (q : SelectStatement) (conds : List String) :
    SelectStatement :=
  { q with condWhereAny := some conds }

/-- Modelled from the spec: `DomainPaginationInput` and its `add_to_query`
are outside src/ (pagination construction is an external collaborator).
`add_to_query` validates the input — failing with a message on malformed
input — and otherwise only adds ordering and a limit to the query. -/
structure DomainPaginationInput : Type where
  sortField : String
  ascending : Bool
  pageSize : Nat
  errMsg : Option String
deriving DecidableEq, Repr

def DomainPaginationInput.add_to_query (p : DomainPaginationInput)
    (q : SelectStatement) : Except String SelectStatement :=
  match p.errMsg with
  | some m => Except.error m
  | none => Except.ok { q with orderByField := some p.sortField,
                               orderAscending := p.ascending,
                               limit := some p.pageSize }

/-- The `SubgraphReadError` variants produced in `domain.rs`: internal
query-construction failures and database errors. -/
inductive SubgraphReadError : Type
  | Internal (msg : String) : SubgraphReadError
  | Db (msg : String) : SubgraphReadError
deriving DecidableEq, Repr

/-- The `anyhow` context attached when pagination fails to build; the Display
form used by `e.to_string()` in the `map_err` is exactly this context
message. -/
def PAGINATION_CONTEXT : String := "adding pagination to query"

/-- One row of `{schema}.domain`, reduced to the columns the modelled queries
inspect; `block_range_current` stands for `block_range @> 2147483647`. -/
structure DomainRow : Type where
  id : String
  name : String
  label_name : Option String
  resolved_address : Option String
  owner : String
  wrapped_owner : Option String
  created_at : Nat
  expiry_date : Option Nat
  block_range_current : Bool
deriving DecidableEq, Repr

/-- What the `$1` placeholder is bound to when a query is executed: a single
address or a list of identifiers. -/
inductive Binding : Type
  | addr (a : String) : Binding
  | ids (l : List String) : Binding

def hasBracket (s : String) : Bool := s.toList.contains (Char.ofNat 91)

/-- Semantics of the custom SQL predicates appearing in the modelled queries,
evaluated at one domain row, with `$1` bound per `b` and `now` the current
time in seconds.  Unknown clauses are false. -/
def evalClause (b : Binding) (now : Nat) (row : DomainRow) (clause : String) :
    Bool :=
  if clause = DOMAIN_BLOCK_RANGE_WHERE_CLAUSE then row.block_range_current
  else if clause = DOMAIN_NONEMPTY_LABEL_WHERE_CLAUSE then row.label_name.isSome
  else if clause = DOMAIN_NOT_EXPIRED_WHERE_CLAUSE then
    match row.expiry_date with
    | none => true
    | some e => decide (now < e)
  else if clause = DOMAIN_RESOLVED_NAMES_WHERE_CLAUSE then !(hasBracket row.name)
  else if clause = NEQ_SELF_CLAUSE then
    match b with
    | Binding.addr a => decide (a ≠ a)
    | Binding.ids _ => false
  else if clause = RESOLVED_ADDRESS_EQ_CLAUSE then
    match b with
    | Binding.addr a => row.resolved_address == some a
    | Binding.ids _ => false
  else if clause = OWNER_EQ_CLAUSE then
    match b with
    | Binding.addr a => row.owner == a
    | Binding.ids _ => false
  else if clause = WRAPPED_OWNER_EQ_CLAUSE then
    match b with
    | Binding.addr a => row.wrapped_owner == some a
    | Binding.ids _ => false
  else if clause = ID_ANY_CLAUSE then
    match b with
    | Binding.ids l => l.contains row.id
    | Binding.addr _ => false
  else false

/-- A row satisfies the query's WHERE part: all `and_where` clauses, and at
least one branch of the `cond_where` any-of condition when present. -/
def rowMatches (q : SelectStatement) (b : Binding) (now : Nat)
    (row : DomainRow) : Bool :=
  q.andWhere.all (evalClause b now row) &&
    (match q.condWhereAny with
     | none => true
     | some cs => cs.any (evalClause b now row))

def insertSortedBy (le : DomainRow → DomainRow → Bool) (r : DomainRow) :
    List DomainRow → List DomainRow
  | [] => [r]
  | x :: xs => if le r x then r :: x :: xs else x :: insertSortedBy le r xs

def sortRowsBy (le : DomainRow → DomainRow → Bool) :
    List DomainRow → List DomainRow
  | [] => []
  | r :: rest => insertSortedBy le r (sortRowsBy le rest)

def CREATED_AT_FIELD : String := "created_at"

def fieldKey (field : String) (row : DomainRow) : Nat :=
  if field = CREATED_AT_FIELD then row.created_at else 0

def fieldLe (asc : Bool) (field : String) (r1 r2 : DomainRow) : Bool :=
  if asc then decide (fieldKey field r1 ≤ fieldKey field r2)
  else decide (fieldKey field r2 ≤ fieldKey field r1)

def applyOrder (q : SelectStatement) (rows : List DomainRow) : List DomainRow :=
  match q.orderByField with
  | none => rows
  | some f => sortRowsBy (fieldLe q.orderAscending f) rows

def applyLimit : Option Nat → List DomainRow → List DomainRow
  | none, rows => rows
  | some n, rows => rows.take n

/-- Execute a modelled select against a table: filter by the WHERE clauses,
order by the pagination sort key, apply the limit. -/
def execSelect (q : SelectStatement) (table : List DomainRow) (b : Binding)
    (now : Nat) : List DomainRow :=
  applyLimit q.limit (applyOrder q (table.filter (rowMatches q b now)))

/-- The `if only_active { q.with_not_expired() }` step shared by the domain
queries. -/
def SelectStatement.and_where_active (q : SelectStatement) (only_active : Bool) :
    SelectStatement :=
  if only_active then q.with_not_expired else q

/-- `gen_sql_select_domains_by_address`, returning the built statement (the
model keeps the statement structural instead of rendering it to text).  The
`$1 <> $1` member of the any-of condition is always present, so that when
neither `resolved_to` nor `owned_by` is set the condition is false. -/
def gen_sql_select_domains_by_address (schema : String)
    (select_clause : Option String) (only_active resolved_to owned_by : Bool)
    (pagination : Option DomainPaginationInput) :
    Except SubgraphReadError SelectStatement :=
  match pagination with
  | some p =>
    match p.add_to_query
        (((match select_clause with
           | some s => sql_gen.domain_select_custom schema s
           | none => sql_gen.domain_select
               schema).with_block_range.with_non_empty_label.with_resolved_names.and_where_active
             only_active).cond_where
          ([NEQ_SELF_CLAUSE] ++
            (if resolved_to then [RESOLVED_ADDRESS_EQ_CLAUSE] else []) ++
            (if owned_by then [OWNER_EQ_CLAUSE, WRAPPED_OWNER_EQ_CLAUSE] else []))) with
    | Except.error _ => Except.error (SubgraphReadError.Internal PAGINATION_CONTEXT)
    | Except.ok q2 => Except.ok q2
  | none =>
    Except.ok
      (((match select_clause with
         | some s => sql_gen.domain_select_custom schema s
         | none => sql_gen.domain_select
             schema).with_block_range.with_non_empty_label.with_resolved_names.and_where_active
           only_active).cond_where
        ([NEQ_SELF_CLAUSE] ++
          (if resolved_to then [RESOLVED_ADDRESS_EQ_CLAUSE] else []) ++
          (if owned_by then [OWNER_EQ_CLAUSE, WRAPPED_OWNER_EQ_CLAUSE] else [])))

/-- `hash_name::hex`: addresses are modelled as already-rendered lowercase
hex strings, so the formatter is the identity on the model's addresses. -/
def hex (a : String) : String := a

/-- The fields of `LookupAddressInput` used by `find_resolved_addresses`. -/
structure LookupAddressInput : Type where
  address : String
  resolved_to : Bool
  owned_by : Bool
  only_active : Bool
  pagination : DomainPaginationInput

/-- The `$1` binding supplied to `find_domains`: the domain-name id list when
present (`id = ANY($1)`), nothing otherwise. -/
def bindingOf : Option (List String) → Binding
  | some names => Binding.ids names
  | none => Binding.ids []

/-- `find_domains`: builds the domain select (block-range filter, optional
not-expired filter, then either `id = ANY($1)` or the non-empty-label and
resolved-names filters), adds pagination — mapping a pagination failure to
`Internal` with the context message before anything reaches the database —
and only then executes the query. -/
def find_domains (table : List DomainRow) (now : Nat) (schema : String)
    (domain_names : Option (List String)) (only_active : Bool)
    (pagination : Option DomainPaginationInput) :
    Except SubgraphReadError (List DomainRow) :=
  match pagination with
  | some p =>
    match p.add_to_query
        (match domain_names with
         | some _ =>
           (((sql_gen.domain_select schema).with_block_range.and_where_active
               only_active).and_where ID_ANY_CLAUSE)
         | none =>
           ((sql_gen.domain_select schema).with_block_range.and_where_active
               only_active).with_non_empty_label.with_resolved_names) with
    | Except.error _ => Except.error (SubgraphReadError.Internal PAGINATION_CONTEXT)
    | Except.ok q2 => Except.ok (execSelect q2 table (bindingOf domain_names) now)
  | none =>
    Except.ok
      (execSelect
        (match domain_names with
         | some _ =>
           (((sql_gen.domain_select schema).with_block_range.and_where_active
               only_active).and_where ID_ANY_CLAUSE)
         | none =>
           ((sql_gen.domain_select schema).with_block_range.and_where_active
               only_active).with_non_empty_label.with_resolved_names)
        table (bindingOf domain_names) now)

/-- `find_resolved_addresses`: generates the by-address select (no custom
select clause, pagination from the input) and executes it with `$1` bound to
the hex-rendered input address. -/
def find_resolved_addresses (table : List DomainRow) (now : Nat)
    (schema : String) (input : LookupAddressInput) :
    Except SubgraphReadError (List DomainRow) :=
  match gen_sql_select_domains_by_address schema none input.only_active
      input.resolved_to input.owned_by (some input.pagination) with
  | Except.error e => Except.error e
  | Except.ok q => Except.ok (execSelect q table (Binding.addr (hex input.address)) now)

def COUNT_STAR_SELECT : String := "COUNT(*)"

/-- `count_domains_by_address`: same generated select with a `COUNT(*)`
select clause and no pagination; the scalar result is the number of rows
matching the WHERE part. -/
def count_domains_by_address (table : List DomainRow) (now : Nat)
    (schema : String) (address : String)
    (only_active resolved_to owned_by : Bool) :
    Except SubgraphReadError Nat :=
  match gen_sql_select_domains_by_address schema (some COUNT_STAR_SELECT)
      only_active resolved_to owned_by none with
  | Except.error e => Except.error e
  | Except.ok q =>
    Except.ok ((table.filter (rowMatches q (Binding.addr (hex address)) now)).length)

/-- Claim C8: when query construction fails because adding the (malformed)
pagination input to the domain-lookup query fails, the operation returns an
`Internal` error carrying the construction-failure message, and no query is
sent to the database: the outcome is the same for every table contents. -/
theorem find_domains_pagination_internal_error (schema : String)
    (p : DomainPaginationInput) (m : String) (hp : p.errMsg = some m)
    (now : Nat) (domain_names : Option (List String)) (only_active : Bool)
    (address : String) (resolved_to owned_by active2 : Bool) :
    (∀ table : List DomainRow,
      find_domains table now schema domain_names only_active (some p) =
        Except.error (SubgraphReadError.Internal PAGINATION_CONTEXT)) ∧
    (∀ table : List DomainRow,
      find_resolved_addresses table now schema
        { address := address, resolved_to := resolved_to, owned_by := owned_by,
          only_active := active2, pagination := p } =
        Except.error (SubgraphReadError.Internal PAGINATION_CONTEXT)) := by
  constructor
  · intro table
    simp [find_domains, DomainPaginationInput.add_to_query, hp]
  · intro table
    simp [find_resolved_addresses, gen_sql_select_domains_by_address,
      DomainPaginationInput.add_to_query, hp]

/-- Witness input for claims C8 and C9: a malformed and a well-formed
pagination input. -/
def badPagination : DomainPaginationInput :=
  { sortField := CREATED_AT_FIELD, ascending := true, pageSize := 50,
    errMsg := some "invalid page token" }

def goodPagination : DomainPaginationInput :=
  { sortField := CREATED_AT_FIELD, ascending := true, pageSize := 50,
    errMsg := none }

def sampleSchema : String := "sgd1"

def sampleAddress : String := "0x1234"

/-- Witness for claim C8's theorem, at a concrete malformed pagination. -/
theorem find_domains_pagination_internal_error_witness :
    badPagination.errMsg = some "invalid page token" ∧
      ((∀ table : List DomainRow,
        find_domains table 0 sampleSchema none false (some badPagination) =
          Except.error (SubgraphReadError.Internal PAGINATION_CONTEXT)) ∧
      (∀ table : List DomainRow,
        find_resolved_addresses table 0 sampleSchema
          { address := sampleAddress, resolved_to := true, owned_by := false,
            only_active := false, pagination := badPagination } =
          Except.error (SubgraphReadError.Internal PAGINATION_CONTEXT))) :=
  ⟨rfl,
   find_domains_pagination_internal_error sampleSchema badPagination
     "invalid page token" rfl 0 none false sampleAddress true false false⟩

theorem evalClause_neqself (a : String) (now : Nat) (row : DomainRow) :
    evalClause (Binding.addr a) now row NEQ_SELF_CLAUSE = false := by
  unfold evalClause
  rw [if_neg (by decide), if_neg (by decide), if_neg (by decide),
    if_neg (by decide), if_pos rfl]
  simp

theorem filter_neqself_nil (q : SelectStatement)
    (hc : q.condWhereAny = some [NEQ_SELF_CLAUSE]) (a : String) (now : Nat)
    (table : List DomainRow) :
    table.filter (rowMatches q (Binding.addr a) now) = [] := by
  rw [List.filter_eq_nil_iff]
  intro row hrow hmatch
  simp only [rowMatches, hc, Bool.and_eq_true, List.any_eq_true] at hmatch
  obtain ⟨-, c, hcmem, hceval⟩ := hmatch
  rcases List.mem_singleton.mp hcmem with rfl
  rw [evalClause_neqself] at hceval
  exact Bool.false_ne_true hceval

theorem execSelect_neqself (q : SelectStatement)
    (hc : q.condWhereAny = some [NEQ_SELF_CLAUSE]) (a : String) (now : Nat)
    (table : List DomainRow) :
    execSelect q table (Binding.addr a) now = [] := by
  unfold execSelect
  rw [filter_neqself_nil q hc a now table]
  cases ho : q.orderByField <;> cases hl : q.limit <;>
    simp [applyOrder, applyLimit, ho, hl, sortRowsBy, List.take_nil]

/-- Claim C9: for every schema, only_active flag and well-formed pagination
input, when both resolved_to and owned_by are false, the generated statement
constrains the address match to the single always-false predicate
`$1 <> $1`; consequently `find_resolved_addresses` returns the empty list and
`count_domains_by_address` returns 0. -/
theorem domains_by_address_no_flags_empty (schema : String)
    (only_active : Bool) (p : DomainPaginationInput) (hp : p.errMsg = none)
    (table : List DomainRow) (now : Nat) (addr : String) (active2 : Bool) :
    (∃ q, gen_sql_select_domains_by_address schema none only_active false false
        (some p) = Except.ok q ∧ q.condWhereAny = some [NEQ_SELF_CLAUSE]) ∧
    find_resolved_addresses table now schema
      { address := addr, resolved_to := false, owned_by := false,
        only_active := only_active, pagination := p } = Except.ok [] ∧
    count_domains_by_address table now schema addr active2 false false =
      Except.ok 0 := by
  have hbase : gen_sql_select_domains_by_address schema none only_active false
      false (some p) =
      Except.ok { selectClause := DOMAIN_DEFAULT_SELECT_CLAUSE,
                  fromSchema := schema, fromTable := "domain",
                  andWhere := (if only_active then
                      [DOMAIN_BLOCK_RANGE_WHERE_CLAUSE,
                       DOMAIN_NONEMPTY_LABEL_WHERE_CLAUSE,
                       DOMAIN_RESOLVED_NAMES_WHERE_CLAUSE,
                       DOMAIN_NOT_EXPIRED_WHERE_CLAUSE]
                    else
                      [DOMAIN_BLOCK_RANGE_WHERE_CLAUSE,
                       DOMAIN_NONEMPTY_LABEL_WHERE_CLAUSE,
                       DOMAIN_RESOLVED_NAMES_WHERE_CLAUSE]),
                  condWhereAny := some [NEQ_SELF_CLAUSE],
                  orderByField := some p.sortField,
                  orderAscending := p.ascending,
                  limit := some p.pageSize } := by
    cases only_active <;>
      simp [gen_sql_select_domains_by_address, DomainPaginationInput.add_to_query,
        hp, sql_gen.domain_select, sql_gen.domain_select_custom,
        SelectStatement.with_block_range, SelectStatement.with_non_empty_label,
        SelectStatement.with_resolved_names, SelectStatement.and_where_active,
        SelectStatement.with_not_expired, SelectStatement.and_where,
        SelectStatement.cond_where]
  have hbase2 : gen_sql_select_domains_by_address schema
      (some COUNT_STAR_SELECT) active2 false false none =
      Except.ok { selectClause := COUNT_STAR_SELECT,
                  fromSchema := schema, fromTable := "domain",
                  andWhere := (if active2 then
                      [DOMAIN_BLOCK_RANGE_WHERE_CLAUSE,
                       DOMAIN_NONEMPTY_LABEL_WHERE_CLAUSE,
                       DOMAIN_RESOLVED_NAMES_WHERE_CLAUSE,
                       DOMAIN_NOT_EXPIRED_WHERE_CLAUSE]
                    else
                      [DOMAIN_BLOCK_RANGE_WHERE_CLAUSE,
                       DOMAIN_NONEMPTY_LABEL_WHERE_CLAUSE,
                       DOMAIN_RESOLVED_NAMES_WHERE_CLAUSE]),
                  condWhereAny := some [NEQ_SELF_CLAUSE],
                  orderByField := none, orderAscending := true,
                  limit := none } := by
    cases active2 <;>
      simp [gen_sql_select_domains_by_address, sql_gen.domain_select,
        sql_gen.domain_select_custom, SelectStatement.with_block_range,
        SelectStatement.with_non_empty_label, SelectStatement.with_resolved_names,
        SelectStatement.and_where_active, SelectStatement.with_not_expired,
        SelectStatement.and_where, SelectStatement.cond_where]
  refine ⟨⟨_, hbase, rfl⟩, ?_, ?_⟩
  · simp only [find_resolved_addresses, hbase]
    congr 1
    exact execSelect_neqself _ rfl (hex addr) now table
  · simp only [count_domains_by_address, hbase2]
    congr 1
    rw [filter_neqself_nil _ rfl (hex addr) now table]
    rfl

/-- Witness for claim C9's theorem at a concrete well-formed pagination. -/
theorem domains_by_address_no_flags_empty_witness :
    goodPagination.errMsg = none ∧
      ((∃ q, gen_sql_select_domains_by_address sampleSchema none false false
          false (some goodPagination) = Except.ok q ∧
          q.condWhereAny = some [NEQ_SELF_CLAUSE]) ∧
        find_resolved_addresses [] 0 sampleSchema
          { address := sampleAddress, resolved_to := false, owned_by := false,
            only_active := false, pagination := goodPagination } =
          Except.ok [] ∧
        count_domains_by_address [] 0 sampleSchema sampleAddress false false
          false = Except.ok 0) :=
  ⟨rfl,
   domains_by_address_no_flags_empty sampleSchema false goodPagination rfl
     [] 0 sampleAddress false⟩

/-- The row type returned by `batch_search_addresses`. -/
structure DomainWithAddress : Type where
  id : String
  domain_name : String
  resolved_address : String
deriving DecidableEq, Repr

/-- The WHERE part of the `batch_search_addresses` query:
`resolved_address = ANY($1)`, `name NOT LIKE` the bracket pattern, the
block-range filter, `label_name IS NOT NULL`, and the not-expired filter. -/
def batchQualifies (addresses : List String) (now : Nat) (r : DomainRow) :
    Bool :=
  (match r.resolved_address with
   | some a => addresses.contains a
   | none => false) &&
  !(hasBracket r.name) && r.block_range_current && r.label_name.isSome &&
  (match r.expiry_date with
   | none => true
   | some e => decide (now < e))

/-- The `ORDER BY resolved_address, created_at` comparison (NULL modelled as
the empty key; qualifying rows always carry an address). -/
def addrCreatedLe (r1 r2 : DomainRow) : Bool :=
  decide (r1.resolved_address.getD "" < r2.resolved_address.getD "") ||
    (decide (r1.resolved_address.getD "" = r2.resolved_address.getD "") &&
      decide (r1.created_at ≤ r2.created_at))

/-- `DISTINCT ON (resolved_address)`: keep the first row of each
resolved_address in the (sorted) row sequence. -/
def distinctOnResolved (seen : List (Option String)) :
    List DomainRow → List DomainRow
  | [] => []
  | r :: rest =>
    if r.resolved_address ∈ seen then distinctOnResolved seen rest
    else r :: distinctOnResolved (r.resolved_address :: seen) rest

/-- `batch_search_addresses`: `SELECT DISTINCT ON (resolved_address) id,
name AS domain_name, resolved_address FROM {schema}.domain WHERE ... ORDER BY
resolved_address, created_at`. -/
def batch_search_addresses (table : List DomainRow) (now : Nat)
    (addresses : List String) : List DomainWithAddress :=
  (distinctOnResolved []
      (sortRowsBy addrCreatedLe (table.filter (batchQualifies addresses now)))).map
    (fun r => { id := r.id, domain_name := r.name,
                resolved_address := r.resolved_address.getD "" })

theorem mem_insertSortedBy (le : DomainRow → DomainRow → Bool)
    (r a : DomainRow) :
    ∀ l, a ∈ insertSortedBy le r l ↔ a = r ∨ a ∈ l := by
  intro l
  induction l with
  | nil => simp [insertSortedBy]
  | cons x xs ih =>
    by_cases hle : le r x = true
    · simp [insertSortedBy, if_pos hle, List.mem_cons]
    · simp only [insertSortedBy, if_neg hle, List.mem_cons, ih]
      tauto

theorem mem_sortRowsBy (le : DomainRow → DomainRow → Bool) (a : DomainRow) :
    ∀ l, a ∈ sortRowsBy le l ↔ a ∈ l := by
  intro l
  induction l with
  | nil => simp [sortRowsBy]
  | cons x xs ih => simp [sortRowsBy, mem_insertSortedBy, ih]

theorem pairwise_insertSortedBy (le : DomainRow → DomainRow → Bool)
    (htot : ∀ a b, le a b = true ∨ le b a = true)
    (htr : ∀ a b c, le a b = true → le b c = true → le a c = true)
    (r : DomainRow) :
    ∀ l, List.Pairwise (fun a b => le a b = true) l →
      List.Pairwise (fun a b => le a b = true) (insertSortedBy le r l) := by
  intro l
  induction l with
  | nil => intro _; simp [insertSortedBy]
  | cons x xs ih =>
    intro hp
    obtain ⟨hx, hxs⟩ := List.pairwise_cons.mp hp
    by_cases hle : le r x = true
    · simp only [insertSortedBy, if_pos hle]
      refine List.pairwise_cons.mpr ⟨?_, hp⟩
      intro b hb
      rcases List.mem_cons.mp hb with rfl | hb
      · exact hle
      · exact htr r x b hle (hx b hb)
    · simp only [insertSortedBy, if_neg hle]
      refine List.pairwise_cons.mpr ⟨?_, ih hxs⟩
      intro b hb
      rcases (mem_insertSortedBy le r b xs).mp hb with rfl | hb
      · rcases htot b x with h | h
        · exact absurd h hle
        · exact h
      · exact hx b hb

theorem pairwise_sortRowsBy (le : DomainRow → DomainRow → Bool)
    (htot : ∀ a b, le a b = true ∨ le b a = true)
    (htr : ∀ a b c, le a b = true → le b c = true → le a c = true) :
    ∀ l, List.Pairwise (fun a b => le a b = true) (sortRowsBy le l) := by
  intro l
  induction l with
  | nil => simp [sortRowsBy]
  | cons x xs ih => exact pairwise_insertSortedBy le htot htr x _ ih

theorem addrCreatedLe_total (r1 r2 : DomainRow) :
    addrCreatedLe r1 r2 = true ∨ addrCreatedLe r2 r1 = true := by
  simp only [addrCreatedLe, Bool.or_eq_true, Bool.and_eq_true,
    decide_eq_true_eq]
  rcases lt_trichotomy (r1.resolved_address.getD "")
      (r2.resolved_address.getD "") with h | h | h
  · exact Or.inl (Or.inl h)
  · rcases Nat.le_total r1.created_at r2.created_at with hc | hc
    · exact Or.inl (Or.inr ⟨h, hc⟩)
    · exact Or.inr (Or.inr ⟨h.symm, hc⟩)
  · exact Or.inr (Or.inl h)

theorem addrCreatedLe_trans (a b c : DomainRow)
    (hab : addrCreatedLe a b = true) (hbc : addrCreatedLe b c = true) :
    addrCreatedLe a c = true := by
  simp only [addrCreatedLe, Bool.or_eq_true, Bool.and_eq_true,
    decide_eq_true_eq] at hab hbc ⊢
  rcases hab with h1 | ⟨h1, h1c⟩
  · rcases hbc with h2 | ⟨h2, h2c⟩
    · exact Or.inl (lt_trans h1 h2)
    · exact Or.inl (h2 ▸ h1)
  · rcases hbc with h2 | ⟨h2, h2c⟩
    · exact Or.inl (h1 ▸ h2)
    · exact Or.inr ⟨h1.trans h2, Nat.le_trans h1c h2c⟩

theorem mem_distinctOnResolved (a : DomainRow) :
    ∀ (l : List DomainRow) (seen : List (Option String)),
      a ∈ distinctOnResolved seen l → a ∈ l ∧ a.resolved_address ∉ seen := by
  intro l
  induction l with
  | nil => intro seen h; simp [distinctOnResolved] at h
  | cons r rest ih =>
    intro seen h
    by_cases hr : r.resolved_address ∈ seen
    · obtain ⟨h1, h2⟩ := ih seen (by simpa [distinctOnResolved, if_pos hr] using h)
      exact ⟨List.mem_cons_of_mem _ h1, h2⟩
    · rw [distinctOnResolved, if_neg hr] at h
      rcases List.mem_cons.mp h with rfl | h
      · exact ⟨List.mem_cons_self _ _, hr⟩
      · obtain ⟨h1, h2⟩ := ih _ h
        refine ⟨List.mem_cons_of_mem _ h1, fun hs => h2 (List.mem_cons_of_mem _ hs)⟩

theorem pairwise_keys_distinctOnResolved :
    ∀ (l : List DomainRow) (seen : List (Option String)),
      List.Pairwise (fun a b : DomainRow =>
        a.resolved_address ≠ b.resolved_address) (distinctOnResolved seen l) := by
  intro l
  induction l with
  | nil => intro seen; simp [distinctOnResolved]
  | cons r rest ih =>
    intro seen
    by_cases hr : r.resolved_address ∈ seen
    · simpa [distinctOnResolved, if_pos hr] using ih seen
    · rw [distinctOnResolved, if_neg hr]
      refine List.pairwise_cons.mpr ⟨?_, ih _⟩
      intro b hb
      have := (mem_distinctOnResolved b rest _ hb).2
      intro he
      exact this (he ▸ List.mem_cons_self _ _)

theorem distinctOnResolved_min :
    ∀ (l : List DomainRow) (seen : List (Option String)),
      List.Pairwise (fun a b => addrCreatedLe a b = true) l →
      ∀ r ∈ distinctOnResolved seen l, ∀ q ∈ l,
        q.resolved_address = r.resolved_address →
        r.created_at ≤ q.created_at := by
  intro l
  induction l with
  | nil => intro seen _ r hr; simp [distinctOnResolved] at hr
  | cons x rest ih =>
    intro seen hp r hr q hq hkey
    obtain ⟨hx, hrest⟩ := List.pairwise_cons.mp hp
    by_cases hxseen : x.resolved_address ∈ seen
    · rw [distinctOnResolved, if_pos hxseen] at hr
      rcases List.mem_cons.mp hq with rfl | hq
      · exact absurd (hkey ▸ hxseen)
          ((mem_distinctOnResolved r rest seen hr).2)
      · exact ih seen hrest r hr q hq hkey
    · rw [distinctOnResolved, if_neg hxseen] at hr
      rcases List.mem_cons.mp hr with rfl | hr
      · rcases List.mem_cons.mp hq with rfl | hq
        · exact le_refl _
        · have hle := hx q hq
          simp only [addrCreatedLe, Bool.or_eq_true, Bool.and_eq_true,
            decide_eq_true_eq] at hle
          rcases hle with h | ⟨-, h⟩
          · rw [hkey] at h
            exact absurd h (lt_irrefl _)
          · exact h
      · rcases List.mem_cons.mp hq with rfl | hq
        · have := (mem_distinctOnResolved r rest _ hr).2
          exact absurd (hkey ▸ List.mem_cons_self _ _) this
        · exact ih _ hrest r hr q hq hkey

theorem batchQualifies_some (addresses : List String) (now : Nat)
    (r : DomainRow) (h : batchQualifies addresses now r = true) :
    ∃ a, r.resolved_address = some a := by
  rcases hra : r.resolved_address with _ | a
  · rw [batchQualifies, hra] at h
    simp at h
  · exact ⟨a, rfl⟩

/-- Claim C10: for every list of input addresses, `batch_search_addresses`
returns at most one row per distinct resolved_address, and each returned row
comes from a qualifying (current, labelled, resolvable, non-expired) domain
whose created_at is minimal among the qualifying domains sharing that
resolved_address. -/
theorem batch_search_addresses_distinct_min_created (table : List DomainRow)
    (now : Nat) (addresses : List String) :
    ((batch_search_addresses table now addresses).map
        (fun d => d.resolved_address)).Nodup ∧
    ∀ dwa ∈ batch_search_addresses table now addresses,
      ∃ r, r ∈ table ∧ batchQualifies addresses now r = true ∧
        r.id = dwa.id ∧ r.name = dwa.domain_name ∧
        r.resolved_address = some dwa.resolved_address ∧
        ∀ q ∈ table, batchQualifies addresses now q = true →
          q.resolved_address = r.resolved_address →
          r.created_at ≤ q.created_at := by
  have hmemqual : ∀ a : DomainRow,
      a ∈ distinctOnResolved []
        (sortRowsBy addrCreatedLe (table.filter (batchQualifies addresses now))) →
      a ∈ table ∧ batchQualifies addresses now a = true := by
    intro a ha
    have h1 := (mem_distinctOnResolved a _ _ ha).1
    have h2 := (mem_sortRowsBy _ a _).mp h1
    exact List.mem_filter.mp h2
  constructor
  · have hpairkeys := pairwise_keys_distinctOnResolved
      (sortRowsBy addrCreatedLe (table.filter (batchQualifies addresses now))) []
    rw [batch_search_addresses, List.map_map]
    simp only [List.Nodup, List.pairwise_map, Function.comp_def]
    refine List.Pairwise.imp_of_mem ?_ hpairkeys
    intro a b ha hb hne heq
    obtain ⟨ka, hka⟩ := batchQualifies_some addresses now a (hmemqual a ha).2
    obtain ⟨kb, hkb⟩ := batchQualifies_some addresses now b (hmemqual b hb).2
    apply hne
    rw [hka, hkb] at heq ⊢
    simp only [Option.getD_some] at heq
    rw [heq]
  · intro dwa hdwa
    obtain ⟨r, hrdis, hmk⟩ := List.mem_map.mp hdwa
    obtain ⟨hrtab, hrqual⟩ := hmemqual r hrdis
    obtain ⟨ka, hka⟩ := batchQualifies_some addresses now r hrqual
    refine ⟨r, hrtab, hrqual, ?_, ?_, ?_, ?_⟩
    · rw [← hmk]
    · rw [← hmk]
    · rw [← hmk, hka]
      rfl
    · intro q hqtab hqqual hqkey
      have hqfilt : q ∈ table.filter (batchQualifies addresses now) :=
        List.mem_filter.mpr ⟨hqtab, hqqual⟩
      have hqsorted := (mem_sortRowsBy addrCreatedLe q _).mpr hqfilt
      exact distinctOnResolved_min _ []
        (pairwise_sortRowsBy addrCreatedLe addrCreatedLe_total
          (fun a b c => addrCreatedLe_trans a b c) _)
        r hrdis q hqsorted hqkey
